import Mathlib

/-!
Shallow embedding of `thymetogglutil/static/index.js` (thyme-toggl-cli).

The program keeps global mutable arrays `sessions`, `timeEntries`, `log`
(commits), `projects`, `issues`, a counter `idCounter`, and a map
`chartItems` from a date-group string to the day's vis.DataSet of rows.
We embed that mutable state as the structure `AppState` and each event
handler / ajax-success callback as a function on `AppState`.  A JS
exception thrown inside a callback is modelled by an `Option String`
error component; the state returned alongside the error reflects the
mutations already performed before the throw, exactly as in JS.

Timestamp strings of the form "<day> <time-of-day>" (and the `Date`
objects parsed from them) are modelled losslessly by their two
components, so `new Date(date_str + " " + tod)` becomes `JDate.mk
date_str tod` and a date's calendar day is its `day` component.
Epoch-millisecond conversion (`getTime`) is injective, so request time
fields are modelled by the `JDate` values themselves.
-/

namespace Thyme

/-- A timestamp string "<day> <time-of-day>" as sent by the server,
represented by its components. -/
structure TimeStr where
  day : String
  tod : String
deriving DecidableEq

/-- A JS `Date` value, represented by its calendar day and time of day. -/
structure JDate where
  day : String
  tod : String
deriving DecidableEq

/-- Model of `parseTime(time_str)` = `new Date(time_str)` (index.js:184). -/
def parseTime (t : TimeStr) : JDate := ⟨t.day, t.tod⟩

/-- The calendar day of a `Date` (the portion before the space in the
string it was parsed from). -/
def JDate.calendarDay (d : JDate) : String := d.day

/-- One window-activity sample of a session (`extra_data.windows[i]`). -/
structure WSample where
  name : String
  time : Int
deriving DecidableEq

/-- A session's `extra_data` object. -/
structure ExtraData where
  category : String
  windows : List WSample
deriving DecidableEq

/-- A session as delivered by the server (times still strings). -/
structure RawSession where
  start_time : TimeStr
  end_time : TimeStr
  date_group : String
  extra_data : ExtraData
  exported : Option Nat
deriving DecidableEq

/-- A session object held in the `sessions` array.  `idcounter` is the
process-assigned local identity; `none` models the JS property being
absent (undefined). -/
structure Session where
  start_time : JDate
  end_time : JDate
  date_group : String
  extra_data : ExtraData
  exported : Option Nat
  idcounter : Option Nat
deriving DecidableEq

/-- A time entry as delivered by the server or by a mutation response
(times still strings).  `at_` models the JS field `at`. -/
structure RawEntry where
  id : Nat
  start_time : TimeStr
  end_time : TimeStr
  at_ : TimeStr
  description : String
  project : String
  date_group : String
deriving DecidableEq

/-- A time entry held in the `timeEntries` array. -/
structure TimeEntry where
  id : Nat
  start_time : JDate
  end_time : JDate
  at_ : JDate
  description : String
  project : String
  date_group : String
  idcounter : Option Nat
deriving DecidableEq

/-- The issue reference attached to a commit (`commit.issue`). -/
structure IssueLink where
  key : String
  summary : String
deriving DecidableEq

/-- A commit as delivered by the server (time still a string). -/
structure RawCommit where
  time : TimeStr
  message : String
  issue : Option IssueLink
  date_group : String
deriving DecidableEq

/-- A commit held in the `log` array. -/
structure Commit where
  time : JDate
  message : String
  issue : Option IssueLink
  date_group : String
  idcounter : Option Nat
deriving DecidableEq

/-- A project from the server, stored in `projects` without any parsing.
`idcounter` models the JS `idcounter` property, which load never sets on
projects (so it stays `none` / undefined). -/
structure Project where
  id : Nat
  name : String
  clientName : String
  idcounter : Option Nat
deriving DecidableEq

/-- An issue from the server, stored in `issues` without any parsing.
`project` is the associated project value used to pre-fill the project
selector; `none` models a missing/falsy JS value. -/
structure Issue where
  key : String
  summary : String
  project : Option String
  idcounter : Option Nat
deriving DecidableEq

/-- Model of `parseTimeEntry` (index.js:166-171): converts the three time strings
in place and returns the same object; the remaining fields carry over,
and the object has no `idcounter` yet. -/
def parseTimeEntry (e : RawEntry) : TimeEntry :=
  { id := e.id
    start_time := parseTime e.start_time
    end_time := parseTime e.end_time
    at_ := parseTime e.at_
    description := e.description
    project := e.project
    date_group := e.date_group
    idcounter := none }

/-- Model of `parseSession` (index.js:173-177). -/
def parseSession (s : RawSession) : Session :=
  { start_time := parseTime s.start_time
    end_time := parseTime s.end_time
    date_group := s.date_group
    extra_data := s.extra_data
    exported := s.exported
    idcounter := none }

/-- Model of `parseCommit` (index.js:179-182). -/
def parseCommit (c : RawCommit) : Commit :=
  { time := parseTime c.time
    message := c.message
    issue := c.issue
    date_group := c.date_group
    idcounter := none }

/-- The `editable` field of a row: JS `false` or the options object
used for entry rows. -/
inductive EditableVal where
  | off : EditableVal
  | opts (updateTime removeBtn overrideItems : Bool) : EditableVal
deriving DecidableEq

/-- A vis.js row descriptor as built by `makeRow`.  `end_` models the JS
field `end` (absent for commits), `type` the JS field `type` (present
only for commits, as "point"). -/
structure Row where
  id : Option Nat
  content : String
  start : JDate
  end_ : Option JDate
  group : String
  className : String
  title : String
  type : Option String
  editable : EditableVal
deriving DecidableEq

/-- The order in which `wcmp` (index.js:218-224) makes `Array.sort`
arrange window samples: descending by `time`, `a` before `b` when
`b.time ≤ a.time`. -/
def wOrder (a b : WSample) : Prop := b.time ≤ a.time

instance : DecidableRel wOrder := fun a b => Int.decLe b.time a.time

instance : IsTotal WSample wOrder := ⟨fun a b => Int.le_total b.time a.time⟩

instance : IsTrans WSample wOrder := ⟨fun _ _ _ hab hbc => le_trans hbc hab⟩

/-- Model of `obj.extra_data.windows.sort(wcmp)` — JS `Array.prototype.sort` is a
stable in-place sort, so with comparator `wcmp` it produces exactly the
stable descending-by-`time` order, i.e. `insertionSort wOrder`. -/
def sortWindows (ws : List WSample) : List WSample :=
  List.insertionSort wOrder ws

/-- The session-row title (index.js:236): sorted samples, first 10, each
"<time>s - <name>", joined by "<br />". -/
def sessionTitle (ws : List WSample) : String :=
  String.intercalate "<br />"
    (((sortWindows ws).take 10).map (fun w => toString w.time ++ "s - " ++ w.name))

/-- Model of `makeRow(obj, 'session')` (index.js:228-238).  The call sorts
`obj.extra_data.windows` in place, so it returns both the row and the
(possibly reordered) session object. -/
def makeSessionRow (s : Session) : Row × Session :=
  ({ id := s.idcounter
     content := ""
     start := s.start_time
     end_ := some s.end_time
     group := "session"
     className := "session-" ++ s.extra_data.category
     title := sessionTitle s.extra_data.windows
     type := none
     editable := .off },
   { s with extra_data := { s.extra_data with windows := sortWindows s.extra_data.windows } })

/-- Model of `makeRow(obj, 'entry')` (index.js:239-253). -/
def makeEntryRow (e : TimeEntry) : Row :=
  { id := e.idcounter
    content := e.description
    start := e.start_time
    end_ := some e.end_time
    group := "entry"
    className := "entry"
    title := e.description
    type := none
    editable := .opts true true true }

/-- Model of `makeRow(obj, 'commit')` (index.js:254-264). -/
def makeCommitRow (c : Commit) : Row :=
  { id := c.idcounter
    content := ""
    start := c.time
    end_ := none
    group := "commit"
    className := "commit"
    title := c.message ++ (match c.issue with
      | some i => "<br />" ++ i.key ++ " " ++ i.summary
      | none => "")
    type := some "point"
    editable := .off }

/-- The three entity kinds that can be passed to `makeRow`. -/
inductive Entity where
  | session (s : Session) : Entity
  | entry (e : TimeEntry) : Entity
  | commit (c : Commit) : Entity
deriving DecidableEq

/-- Model of `makeRow(obj, type)` (index.js:226-266): switches on the kind
string; an unrecognized kind falls through the switch and returns
undefined (`none`); passing an object of the wrong shape for the kind
would throw on a missing property, also modelled by `none`.  The
returned entity reflects the in-place window sort done for sessions. -/
def makeRow (ent : Entity) (ty : String) : Option (Row × Entity) :=
  if ty = "session" then
    match ent with
    | .session s => some ((makeSessionRow s).1, .session (makeSessionRow s).2)
    | _ => none
  else if ty = "entry" then
    match ent with
    | .entry e => some (makeEntryRow e, .entry e)
    | _ => none
  else if ty = "commit" then
    match ent with
    | .commit c => some (makeCommitRow c, .commit c)
    | _ => none
  else none

/-- The `chartItems` global: one `(date_group, rows)` pair per day, each
`rows` modelling that day's `vis.DataSet`. -/
def Charts := List (String × List Row)

instance : DecidableEq Charts := inferInstanceAs (DecidableEq (List (String × List Row)))

/-- Property read `chartItems[g]`: the row list stored under key `g`
(`none` models the property being undefined). -/
def chartLookup : Charts → String → Option (List Row)
  | [], _ => none
  | (k, v) :: rest, g => if g = k then some v else chartLookup rest g

/-- Apply `f` to the row list stored under key `g`. -/
def chartsModify : Charts → String → (List Row → List Row) → Charts
  | [], _, _ => []
  | (k, v) :: rest, g, f =>
      (k, if k = g then f v else v) :: chartsModify rest g f

/-- Model of `vis.DataSet.update({id, title, content, start, end})` as issued by
`refreshEntry` (index.js:102-107): merge the given fields into the row
with this id, keeping its other fields; when no row has the id, vis
adds the item instead (its JS-absent fields are modelled by defaults). -/
def chartUpdateRow (rows : List Row) (rid : Option Nat) (desc : String)
    (s e : JDate) : List Row :=
  if rows.any (fun r => r.id == rid) then
    rows.map (fun r =>
      if r.id == rid then
        { r with title := desc, content := desc, start := s, end_ := some e }
      else r)
  else
    rows ++ [{ id := rid, content := desc, start := s, end_ := some e,
               group := "", className := "", title := desc, type := none,
               editable := .off }]

/-- Model of `vis.DataSet.add(row)` as issued by `createEntry` (index.js:118):
throws when the chart for the key is missing (`c` is undefined) or when
a row with the same id already exists; otherwise appends the row. -/
def chartAddRow (charts : Charts) (g : String) (r : Row) :
    Charts × Option String :=
  match chartLookup charts g with
  | none => (charts, some "TypeError: chartItems has no DataSet for this date group")
  | some rows =>
      if rows.any (fun x => x.id == r.id) then
        (charts, some "Error: item with the same id already exists in the DataSet")
      else
        (chartsModify charts g (fun rs => rs ++ [r]), none)

/-- The global mutable state of index.js (lines 33-42). -/
structure AppState where
  sessions : List Session
  timeEntries : List TimeEntry
  log : List Commit
  projects : List Project
  issues : List Issue
  idCounter : Nat
  chartItems : Charts
deriving DecidableEq

/-- The state right after the script's globals are declared. -/
def initState : AppState :=
  { sessions := [], timeEntries := [], log := [], projects := [],
    issues := [], idCounter := 0, chartItems := [] }

/-- The in-place field update `refreshEntry` performs on a matching
entry (index.js:98-100). -/
def updEntity (e : TimeEntry) (raw : RawEntry) : TimeEntry :=
  { e with start_time := parseTime raw.start_time
           end_time := parseTime raw.end_time
           description := raw.description }

/-- The loop body of `refreshEntry` (index.js:95-109): walk the
`timeEntries` array in order; for each entry whose remote id equals the
response's id, overwrite its start/end/description and issue a
`DataSet.update` on `chartItems[entry.date_group]`.  When that chart is
undefined the `c.update` call throws: the entry's field mutation has
already happened, earlier iterations stand, and the loop aborts. -/
def refreshEntryGo (raw : RawEntry) :
    List TimeEntry → Charts → List TimeEntry × Charts × Option String
  | [], charts => ([], charts, none)
  | e :: rest, charts =>
      if e.id = raw.id then
        let e' := updEntity e raw
        match chartLookup charts e.date_group with
        | none => (e' :: rest, charts,
            some "TypeError: chartItems has no DataSet for this date group")
        | some _ =>
            let charts' := chartsModify charts e.date_group
              (fun rows => chartUpdateRow rows e.idcounter raw.description
                (parseTime raw.start_time) (parseTime raw.end_time))
            let res := refreshEntryGo raw rest charts'
            (e' :: res.1, res.2.1, res.2.2)
      else
        let res := refreshEntryGo raw rest charts
        (e :: res.1, res.2.1, res.2.2)

/-- Model of `refreshEntry(newEntry)` (index.js:93-110). -/
def refreshEntry (st : AppState) (raw : RawEntry) : AppState × Option String :=
  let res := refreshEntryGo raw st.timeEntries st.chartItems
  ({ st with timeEntries := res.1, chartItems := res.2.1 }, res.2.2)

/-- Model of `createEntry(session, entry)` (index.js:112-119): parse the response
entity, overwrite its date group with the session's, assign the next
local identity, push it onto `timeEntries`, then add its row to the
day's chart.  Only `session.date_group` is read from the first
argument, so it is passed as a string.  If the chart is missing or the
row id collides, `c.add` throws after the entity-side mutations. -/
def createEntry (st : AppState) (dg : String) (raw : RawEntry) :
    AppState × Option String :=
  let e1 := { parseTimeEntry raw with date_group := dg, idcounter := some st.idCounter }
  let st1 := { st with idCounter := st.idCounter + 1,
                       timeEntries := st.timeEntries ++ [e1] }
  let added := chartAddRow st1.chartItems e1.date_group (makeEntryRow e1)
  ({ st1 with chartItems := added.1 }, added.2)

/-- The request body posted by `exportSession` (index.js:121-130): no
`id` field, the session's start time, the caller-supplied end time, and
the form's description and selected project. -/
structure ExportRequest where
  id : Option Nat
  start_time : JDate
  end_time : JDate
  name : String
  project : Option String
deriving DecidableEq

/-- Model of `exportSession(session, end_time)`'s request (index.js:122-126). -/
def exportSessionRequest (session : Session) (end_time : JDate)
    (desc proj : String) : ExportRequest :=
  { id := none, start_time := session.start_time, end_time := end_time,
    name := desc, project := some proj }

/-- The export-button handler for a session selection (index.js:5-7):
it invokes `exportSession(global_selected.item,
global_selected_last.item.end_time)`. -/
def btnExportSession (selected lastSelected : Session) (desc proj : String) :
    ExportRequest :=
  exportSessionRequest selected lastSelected.end_time desc proj

/-- Model of `exportSession`'s success callback (index.js:127-128):
`createEntry(session, data)`. -/
def exportSessionDone (st : AppState) (session : Session) (raw : RawEntry) :
    AppState × Option String :=
  createEntry st session.date_group raw

/-- The request body posted by `splitEntry` (index.js:153-159): the
three timestamps are built as `new Date(date_str + " " + <form
field>)`, so each lies on the calendar day `date_str`. -/
structure SplitRequest where
  id : Nat
  start_time : JDate
  end_time : JDate
  split_time : JDate
  name : String
  project : String
deriving DecidableEq

/-- Model of `splitEntry(entryId, date_str)`'s request (index.js:152-159), with
the form's start/end/split time-of-day strings and description/project
as parameters. -/
def splitEntryRequest (entryId : Nat) (date_str : String)
    (startTod endTod splitTod desc proj : String) : SplitRequest :=
  { id := entryId
    start_time := ⟨date_str, startTod⟩
    end_time := ⟨date_str, endTod⟩
    split_time := ⟨date_str, splitTod⟩
    name := desc
    project := proj }

/-- Model of `splitEntry`'s success callback (index.js:160-163):
`refreshEntry(data.entry1); createEntry({date_group: date_str},
data.entry2)`.  An exception in `refreshEntry` aborts the callback
before `createEntry` runs. -/
def splitEntryDone (st : AppState) (date_str : String)
    (entry1 entry2 : RawEntry) : AppState × Option String :=
  let r := refreshEntry st entry1
  match r.2 with
  | some err => (r.1, some err)
  | none => createEntry r.1 date_str entry2

/-- Model of `deleteEntry`'s success callback (index.js:147-149): it only shows
an alert; no entity collection and no chart is touched. -/
def deleteEntryDone (st : AppState) (_entryId : Nat) (_data : String) : AppState :=
  st

/-- Remove the row with the given id from the day-`g` chart — the
effect of `callback(item)` in the `onRemove` handler (index.js:334),
by which the widget commits the removal to its DataSet. -/
def chartRemoveRow (charts : Charts) (g : String) (rid : Option Nat) : Charts :=
  chartsModify charts g (fun rows => rows.filter (fun r => !(r.id == rid)))

/-- The `onRemove` handler of the day-`g` timeline (index.js:328-335):
for an entry row it looks up the entity by local identity and posts the
delete (the request itself does not change state); for any row the
removal is then confirmed via `callback(item)`, deleting the row from
the day's DataSet immediately, before any response arrives.  When no
entity matches an entry row, `entry.id` throws on undefined and the
callback is never reached. -/
def onRemove (st : AppState) (g : String) (item : Row) :
    AppState × Option String :=
  if item.group = "entry" then
    match st.timeEntries.filter (fun e => e.idcounter == item.id) with
    | [] => (st, some "TypeError: no entry with this idcounter")
    | _ :: _ =>
        ({ st with chartItems := chartRemoveRow st.chartItems g item.id }, none)
  else
    ({ st with chartItems := chartRemoveRow st.chartItems g item.id }, none)

/-- Model of `new Set()` filled by insertion order (index.js:270-273): the
distinct elements of `l`, keeping first occurrences. -/
def distinctsAux (seen : List String) : List String → List String
  | [] => []
  | a :: l =>
      if a ∈ seen then distinctsAux seen l
      else a :: distinctsAux (a :: seen) l

/-- The set of distinct session date groups, in insertion order. -/
def distincts (l : List String) : List String := distinctsAux [] l

/-- Model of `sessions.filter(s => s.date_group == dateGroup)` (index.js:276). -/
def sessionMembers (sessions : List Session) (g : String) : List Session :=
  sessions.filter (fun s => s.date_group == g)

/-- Model of `timeEntries.filter(s => s.date_group == dateGroup)` (index.js:277). -/
def entryMembers (entries : List TimeEntry) (g : String) : List TimeEntry :=
  entries.filter (fun e => e.date_group == g)

/-- Model of `log.filter(s => s.date_group == dateGroup)` (index.js:278). -/
def commitMembers (log : List Commit) (g : String) : List Commit :=
  log.filter (fun c => c.date_group == g)

/-- The row list `drawDayChart` builds for one day (index.js:287-296):
session rows, then entry rows, then commit rows. -/
def dayRows (st : AppState) (g : String) : List Row :=
  (sessionMembers st.sessions g).map (fun s => (makeSessionRow s).1)
    ++ (entryMembers st.timeEntries g).map makeEntryRow
    ++ (commitMembers st.log g).map makeCommitRow

/-- Model of `updateTable()` (index.js:268-298): compute the distinct session
date groups, and for each group build the day's rows and store the
DataSet under `chartItems[day_sessions[0].date_group]` (= the group).
`makeRow(session, 'session')` sorts each session's window list in
place; every session lies in exactly one group, so the aggregate effect
on the `sessions` array is mapping each element through the sort. -/
def updateTable (st : AppState) : AppState :=
  let gs := distincts (st.sessions.map (fun s => s.date_group))
  { st with sessions := st.sessions.map (fun s => (makeSessionRow s).2),
            chartItems := gs.map (fun g => (g, dayRows st g)) }

/-- The payload of a successful GET `sessions` (index.js:49, 56-85). -/
structure ServerData where
  sessions : List RawSession
  time_entries : List RawEntry
  log : List RawCommit
  projects : List Project
  issues : List Issue
deriving DecidableEq

/-- The id-assigning load loop for sessions (index.js:57-61). -/
def assignSessionIds : List Session → Nat → List Session × Nat
  | [], c => ([], c)
  | s :: rest, c =>
      let res := assignSessionIds rest (c + 1)
      ({ s with idcounter := some c } :: res.1, res.2)

/-- The id-assigning load loop for time entries (index.js:63-67). -/
def assignEntryIds : List TimeEntry → Nat → List TimeEntry × Nat
  | [], c => ([], c)
  | e :: rest, c =>
      let res := assignEntryIds rest (c + 1)
      ({ e with idcounter := some c } :: res.1, res.2)

/-- The id-assigning load loop for commits (index.js:69-73). -/
def assignCommitIds : List Commit → Nat → List Commit × Nat
  | [], c => ([], c)
  | m :: rest, c =>
      let res := assignCommitIds rest (c + 1)
      ({ m with idcounter := some c } :: res.1, res.2)

/-- The success callback of `getSessions` (index.js:49-87): reset
`sessions`, `timeEntries`, `log`, `projects` and `chartItems` — but
neither `issues` nor `idCounter` — then parse and push the new
sessions, entries and commits, assigning `idCounter++` to each in that
order, push the projects as-is, append the new issues to the existing
`issues` array, and finally run `updateTable()`. -/
def getSessionsDone (st : AppState) (data : ServerData) : AppState :=
  let r1 := assignSessionIds (data.sessions.map parseSession) st.idCounter
  let r2 := assignEntryIds (data.time_entries.map parseTimeEntry) r1.2
  let r3 := assignCommitIds (data.log.map parseCommit) r2.2
  updateTable
    { sessions := r1.1
      timeEntries := r2.1
      log := r3.1
      projects := data.projects
      issues := st.issues ++ data.issues
      idCounter := r3.2
      chartItems := [] }

/-- Substring test on character lists, modelling JS
`hay.indexOf(needle) > -1`. -/
def hasSub : List Char → List Char → Bool
  | [], needle => needle.isEmpty
  | h :: t, needle => needle.isPrefixOf (h :: t) || hasSub t needle

/-- Model of `text.indexOf(key) > -1` (index.js:23). -/
def strHasSub (hay needle : String) : Bool :=
  hasSub hay.toList needle.toList

/-- The description-change handler (index.js:20-28): filter the issues
whose key occurs in the typed text into `issue`, then — guarded by
`issues.length > 0`, i.e. the whole issue list being non-empty, not the
match list — read `issue[0].project` and, when truthy, write it into
the project selector.  When the issue list is non-empty but nothing
matched, `issue[0]` is undefined and the property read throws.  Returns
the project selector's resulting value. -/
def descriptionChange (issuesList : List Issue) (text : String)
    (projectSel : String) : Except String String :=
  let matched := issuesList.filter (fun i => strHasSub text i.key)
  if issuesList.length > 0 then
    match matched with
    | [] => .error "TypeError: cannot read property of undefined"
    | i :: _ =>
        match i.project with
        | some p => .ok p
        | none => .ok projectSel
  else
    .ok projectSel

/-- The reconciliation/edit operations that mutate the global state:
a completed load, a successful session export (`createEntry`), a
successful update or move (`refreshEntry`), a successful split, a
confirmed delete response, and a widget remove intent. -/
inductive Op where
  | load (data : ServerData) : Op
  | exportDone (session : Session) (raw : RawEntry) : Op
  | updateDone (raw : RawEntry) : Op
  | splitDone (date_str : String) (entry1 entry2 : RawEntry) : Op
  | deleteDone (entryId : Nat) (data : String) : Op
  | removeIntent (g : String) (item : Row) : Op

/-- The state reached after one operation (errors thrown inside a
callback leave the mutations already performed, as in JS). -/
def step (st : AppState) : Op → AppState
  | .load data => getSessionsDone st data
  | .exportDone session raw => (exportSessionDone st session raw).1
  | .updateDone raw => (refreshEntry st raw).1
  | .splitDone ds e1 e2 => (splitEntryDone st ds e1 e2).1
  | .deleteDone i d => deleteEntryDone st i d
  | .removeIntent g item => (onRemove st g item).1

/-- Run a sequence of operations from a state. -/
def runOps (st : AppState) : List Op → AppState
  | [] => st
  | op :: rest => runOps (step st op) rest

/-- All local identities held in the store, in array order:
sessions, then time entries, then commits (projects and issues never
receive one). -/
def storeIds (st : AppState) : List (Option Nat) :=
  st.sessions.map (fun s => s.idcounter)
    ++ st.timeEntries.map (fun e => e.idcounter)
    ++ st.log.map (fun c => c.idcounter)

/-! ### Lemmas about the window sort -/

theorem sortWindows_sorted (ws : List WSample) :
    List.Sorted wOrder (sortWindows ws) :=
  List.sorted_insertionSort wOrder ws

theorem sortWindows_idem (ws : List WSample) :
    sortWindows (sortWindows ws) = sortWindows ws :=
  (sortWindows_sorted ws).insertionSort_eq

theorem sessionTitle_sortWindows (ws : List WSample) :
    sessionTitle (sortWindows ws) = sessionTitle ws := by
  unfold sessionTitle
  rw [sortWindows_idem]

theorem makeSessionRow_snd_idcounter (s : Session) :
    (makeSessionRow s).2.idcounter = s.idcounter := rfl

theorem makeSessionRow_snd_date_group (s : Session) :
    (makeSessionRow s).2.date_group = s.date_group := rfl

/-- A second projection of the session returned by the first call gives
the same row and the same session. -/
theorem makeSessionRow_idem (s : Session) :
    makeSessionRow (makeSessionRow s).2 = makeSessionRow s := by
  unfold makeSessionRow
  simp [sortWindows_idem, sessionTitle_sortWindows]

/-! ### Counting helpers (multiplicity of an element in a list) -/

def cnt {α : Type} [DecidableEq α] (x : α) : List α → Nat
  | [] => 0
  | y :: l => (if y = x then 1 else 0) + cnt x l

theorem cnt_append {α : Type} [DecidableEq α] (x : α) (l m : List α) :
    cnt x (l ++ m) = cnt x l + cnt x m := by
  induction l with
  | nil => simp [cnt]
  | cons y l ih => simp [cnt, ih]; omega

theorem cnt_eq_zero {α : Type} [DecidableEq α] {x : α} {l : List α} :
    cnt x l = 0 ↔ x ∉ l := by
  induction l with
  | nil => simp [cnt]
  | cons y l ih =>
      by_cases h : y = x
      · simp [cnt, h]
      · rw [cnt, if_neg h, Nat.zero_add, ih, List.mem_cons]
        constructor
        · rintro hl (rfl | hm)
          · exact h rfl
          · exact hl hm
        · intro hl hm
          exact hl (Or.inr hm)

/-- Counting inside a date-group filter: only the matching group can
hold the element, with its original multiplicity. -/
theorem cnt_filter_dg {α : Type} [DecidableEq α] (dg : α → String)
    (x : α) (g : String) (l : List α) :
    cnt x (l.filter (fun e => dg e == g)) =
      if dg x = g then cnt x l else 0 := by
  induction l with
  | nil => simp [cnt]
  | cons y l ih =>
      by_cases hy : dg y = g
      · rw [List.filter_cons_of_pos (by simpa using hy)]
        by_cases hx : dg x = g
        · simp only [cnt, ih, if_pos hx]
        · have hne : y ≠ x := fun h => hx (h ▸ hy)
          simp only [cnt, ih, if_neg hx, if_neg hne]
      · rw [List.filter_cons_of_neg (by simpa using hy)]
        by_cases hx : dg x = g
        · have hne : y ≠ x := fun h => hy (h ▸ hx)
          simp only [cnt, ih, if_pos hx, if_neg hne, Nat.zero_add]
        · simp only [ih, if_neg hx]

/-- Summed over a duplicate-free list of groups, the per-group filters
contain the element exactly its original multiplicity when its group is
listed, and never otherwise. -/
theorem cnt_join_filter_dg {α : Type} [DecidableEq α] (dg : α → String)
    (x : α) (l : List α) :
    ∀ G : List String, G.Nodup →
      cnt x (List.flatten (G.map (fun g => l.filter (fun e => dg e == g)))) =
        if dg x ∈ G then cnt x l else 0 := by
  intro G
  induction G with
  | nil => simp [cnt]
  | cons g G ih =>
      intro hnd
      rw [List.map_cons, List.flatten_cons, cnt_append, cnt_filter_dg,
        ih hnd.of_cons]
      by_cases hg : dg x = g
      · have hng : g ∉ G := (List.nodup_cons.mp hnd).1
        simp [hg, hng]
      · simp [hg, List.mem_cons]

/-! ### Lemmas about `distincts` -/

theorem mem_distinctsAux (a : String) :
    ∀ (l : List String) (seen : List String),
      a ∈ distinctsAux seen l ↔ a ∈ l ∧ a ∉ seen := by
  intro l
  induction l with
  | nil => simp [distinctsAux]
  | cons b l ih =>
      intro seen
      by_cases hb : b ∈ seen
      · rw [distinctsAux, if_pos hb, ih]
        constructor
        · rintro ⟨h1, h2⟩
          exact ⟨List.mem_cons_of_mem _ h1, h2⟩
        · rintro ⟨h1, h2⟩
          rcases List.mem_cons.mp h1 with rfl | h1
          · exact absurd hb h2
          · exact ⟨h1, h2⟩
      · rw [distinctsAux, if_neg hb]
        by_cases hab : a = b
        · subst hab
          simp [hb]
        · rw [List.mem_cons, List.mem_cons, ih]
          constructor
          · rintro (h | ⟨h1, h2⟩)
            · exact absurd h hab
            · refine ⟨Or.inr h1, fun hh => h2 (List.mem_cons_of_mem _ hh)⟩
          · rintro ⟨h1, h2⟩
            rcases h1 with rfl | h1
            · exact absurd rfl hab
            · refine Or.inr ⟨h1, fun hh => ?_⟩
              rcases List.mem_cons.mp hh with rfl | hh
              · exact hab rfl
              · exact h2 hh

theorem mem_distincts (a : String) (l : List String) :
    a ∈ distincts l ↔ a ∈ l := by
  rw [distincts, mem_distinctsAux]
  simp

theorem nodup_distinctsAux :
    ∀ (l : List String) (seen : List String), (distinctsAux seen l).Nodup := by
  intro l
  induction l with
  | nil => intro seen; simp [distinctsAux]
  | cons b l ih =>
      intro seen
      by_cases hb : b ∈ seen
      · rw [distinctsAux, if_pos hb]; exact ih seen
      · rw [distinctsAux, if_neg hb]
        refine List.nodup_cons.mpr ⟨fun h => ?_, ih (b :: seen)⟩
        exact ((mem_distinctsAux b l (b :: seen)).mp h).2 (List.mem_cons_self b seen)

theorem nodup_distincts (l : List String) : (distincts l).Nodup :=
  nodup_distinctsAux l []

/-! ### Lemmas about chart lookup and modification -/

theorem chartLookup_chartsModify (charts : Charts) (g : String)
    (f : List Row → List Row) (g' : String) :
    chartLookup (chartsModify charts g f) g' =
      if g' = g then (chartLookup charts g).map f
      else chartLookup charts g' := by
  induction charts with
  | nil => simp [chartsModify, chartLookup]
  | cons p rest ih =>
      obtain ⟨k, v⟩ := p
      rw [chartsModify, chartLookup]
      by_cases hkg : k = g
      · subst hkg
        by_cases hgk : g' = k
        · subst hgk
          simp [chartLookup]
        · simp [chartLookup, hgk, ih]
      · by_cases hgk : g' = k
        · subst hgk
          simp [chartLookup, hkg, Ne.symm hkg]
        · simp [chartLookup, hkg, hgk, ih, Ne.symm hkg]

theorem chartLookup_chartRemoveRow (charts : Charts) (g : String)
    (rid : Option Nat) (g' : String) :
    chartLookup (chartRemoveRow charts g rid) g' =
      if g' = g then
        (chartLookup charts g).map
          (fun rows => rows.filter (fun r => !(r.id == rid)))
      else chartLookup charts g' := by
  rw [chartRemoveRow, chartLookup_chartsModify]

/-- A row list holding exactly one row with the updated id is rewritten
pointwise: that row gets the new title/content/span, all others are
returned byte-identical. -/
theorem chartUpdateRow_single (rpre rpost : List Row) (R : Row)
    (rid : Option Nat) (desc : String) (s e : JDate)
    (hR : R.id = rid)
    (hpre : ∀ r ∈ rpre, r.id ≠ rid) (hpost : ∀ r ∈ rpost, r.id ≠ rid) :
    chartUpdateRow (rpre ++ R :: rpost) rid desc s e =
      rpre ++ { R with title := desc, content := desc,
                       start := s, end_ := some e } :: rpost := by
  have hany : ((rpre ++ R :: rpost).any (fun r => r.id == rid)) = true := by
    refine List.any_eq_true.mpr ⟨R, by simp, by simp [hR]⟩
  rw [chartUpdateRow, if_pos hany, List.map_append, List.map_cons]
  have hmap : ∀ l : List Row, (∀ r ∈ l, r.id ≠ rid) →
      l.map (fun r =>
        if r.id == rid then
          { r with title := desc, content := desc, start := s, end_ := some e }
        else r) = l := by
    intro l hl
    rw [List.map_congr_left (g := id) ?_, List.map_id]
    intro r hr
    have : (r.id == rid) = false := beq_false_of_ne (hl r hr)
    simp [this]
  rw [hmap rpre hpre, hmap rpost hpost, if_pos (by simp [hR])]

theorem chartLookup_isSome_chartsModify (charts : Charts) (g : String)
    (f : List Row → List Row) (g' : String) :
    (chartLookup (chartsModify charts g f) g').isSome =
      (chartLookup charts g').isSome := by
  rw [chartLookup_chartsModify]
  by_cases h : g' = g
  · subst h
    cases chartLookup charts g' <;> simp
  · simp [h]

/-! ### Lemmas about `refreshEntryGo` -/

theorem refreshEntryGo_no_match (raw : RawEntry) :
    ∀ (l : List TimeEntry) (charts : Charts),
      (∀ e ∈ l, e.id ≠ raw.id) →
      refreshEntryGo raw l charts = (l, charts, none) := by
  intro l
  induction l with
  | nil => intro charts _; rfl
  | cons e rest ih =>
      intro charts h
      rw [refreshEntryGo, if_neg (h e (List.mem_cons_self e rest))]
      simp [ih charts (fun x hx => h x (List.mem_cons_of_mem _ hx))]

/-- When exactly one entry in the array carries the response's remote id
and its chart exists, the loop updates that entry in place and issues
exactly one chart update. -/
theorem refreshEntryGo_single (raw : RawEntry) :
    ∀ (pre : List TimeEntry) (E : TimeEntry) (post : List TimeEntry)
      (charts : Charts) (rows : List Row),
      (∀ e ∈ pre, e.id ≠ raw.id) → (∀ e ∈ post, e.id ≠ raw.id) →
      E.id = raw.id → chartLookup charts E.date_group = some rows →
      refreshEntryGo raw (pre ++ E :: post) charts =
        (pre ++ updEntity E raw :: post,
         chartsModify charts E.date_group
           (fun rs => chartUpdateRow rs E.idcounter raw.description
             (parseTime raw.start_time) (parseTime raw.end_time)),
         none) := by
  intro pre
  induction pre with
  | nil =>
      intro E post charts rows _ hpost hE hc
      rw [List.nil_append, refreshEntryGo, if_pos hE, hc]
      simp [refreshEntryGo_no_match raw post _ hpost]
  | cons e pre ih =>
      intro E post charts rows hpre hpost hE hc
      have he : e.id ≠ raw.id := hpre e (List.mem_cons_self e pre)
      rw [List.cons_append, refreshEntryGo, if_neg he,
        ih E post charts rows (fun x hx => hpre x (List.mem_cons_of_mem _ hx))
          hpost hE hc]
      rfl

/-- The loop never touches any entry's local identity. -/
theorem refreshEntryGo_ids (raw : RawEntry) :
    ∀ (l : List TimeEntry) (charts : Charts),
      ((refreshEntryGo raw l charts).1).map (fun e => e.idcounter) =
        l.map (fun e => e.idcounter) := by
  intro l
  induction l with
  | nil => intro charts; rfl
  | cons e rest ih =>
      intro charts
      rw [refreshEntryGo]
      by_cases he : e.id = raw.id
      · rw [if_pos he]
        cases hc : chartLookup charts e.date_group with
        | none => simp [updEntity]
        | some rows => simp [updEntity, ih]
      · rw [if_neg he]
        simp [ih]

/-- When every matching entry's chart exists, the loop terminates
without error and rewrites the entry array pointwise. -/
theorem refreshEntryGo_general (raw : RawEntry) :
    ∀ (l : List TimeEntry) (charts : Charts),
      (∀ e ∈ l, e.id = raw.id → (chartLookup charts e.date_group).isSome = true) →
      (refreshEntryGo raw l charts).1 =
          l.map (fun e => if e.id = raw.id then updEntity e raw else e)
        ∧ (refreshEntryGo raw l charts).2.2 = none := by
  intro l
  induction l with
  | nil => intro charts _; exact ⟨rfl, rfl⟩
  | cons e rest ih =>
      intro charts h
      by_cases he : e.id = raw.id
      · obtain ⟨rows, hrows⟩ :=
          Option.isSome_iff_exists.mp (h e (List.mem_cons_self e rest) he)
        rw [refreshEntryGo, if_pos he, hrows]
        have h' : ∀ x ∈ rest, x.id = raw.id →
            (chartLookup (chartsModify charts e.date_group
              (fun rs => chartUpdateRow rs e.idcounter raw.description
                (parseTime raw.start_time) (parseTime raw.end_time)))
              x.date_group).isSome = true := by
          intro x hx hxid
          rw [chartLookup_isSome_chartsModify]
          exact h x (List.mem_cons_of_mem _ hx) hxid
        obtain ⟨ih1, ih2⟩ := ih _ h'
        simp [he, ih1, ih2]
      · rw [refreshEntryGo, if_neg he]
        obtain ⟨ih1, ih2⟩ := ih charts
          (fun x hx hxid => h x (List.mem_cons_of_mem _ hx) hxid)
        simp [he, ih1, ih2]

/-! ### Lemmas about the load id assignment -/

theorem assignSessionIds_spec :
    ∀ (l : List Session) (c : Nat),
      (assignSessionIds l c).1.map (fun s => s.idcounter) =
          (List.range l.length).map (fun k => some (c + k))
        ∧ (assignSessionIds l c).2 = c + l.length := by
  intro l
  induction l with
  | nil => intro c; simp [assignSessionIds]
  | cons s rest ih =>
      intro c
      obtain ⟨ih1, ih2⟩ := ih (c + 1)
      rw [assignSessionIds]
      refine ⟨?_, by simp [ih2]; omega⟩
      simp only [List.map_cons, ih1, List.length_cons, List.range_succ_eq_map,
        List.map_map, Nat.add_zero]
      refine congrArg₂ _ rfl ?_
      refine List.map_congr_left ?_
      intro a _
      exact congrArg some (by omega)

theorem assignEntryIds_spec :
    ∀ (l : List TimeEntry) (c : Nat),
      (assignEntryIds l c).1.map (fun e => e.idcounter) =
          (List.range l.length).map (fun k => some (c + k))
        ∧ (assignEntryIds l c).2 = c + l.length := by
  intro l
  induction l with
  | nil => intro c; simp [assignEntryIds]
  | cons s rest ih =>
      intro c
      obtain ⟨ih1, ih2⟩ := ih (c + 1)
      rw [assignEntryIds]
      refine ⟨?_, by simp [ih2]; omega⟩
      simp only [List.map_cons, ih1, List.length_cons, List.range_succ_eq_map,
        List.map_map, Nat.add_zero]
      refine congrArg₂ _ rfl ?_
      refine List.map_congr_left ?_
      intro a _
      exact congrArg some (by omega)

theorem assignCommitIds_spec :
    ∀ (l : List Commit) (c : Nat),
      (assignCommitIds l c).1.map (fun m => m.idcounter) =
          (List.range l.length).map (fun k => some (c + k))
        ∧ (assignCommitIds l c).2 = c + l.length := by
  intro l
  induction l with
  | nil => intro c; simp [assignCommitIds]
  | cons s rest ih =>
      intro c
      obtain ⟨ih1, ih2⟩ := ih (c + 1)
      rw [assignCommitIds]
      refine ⟨?_, by simp [ih2]; omega⟩
      simp only [List.map_cons, ih1, List.length_cons, List.range_succ_eq_map,
        List.map_map, Nat.add_zero]
      refine congrArg₂ _ rfl ?_
      refine List.map_congr_left ?_
      intro a _
      exact congrArg some (by omega)

/-! ### The local-identity invariant -/

/-- Every stored local identity is assigned (`some`), below the
counter, and no two stored entities share one. -/
def IdInv (st : AppState) : Prop :=
  (storeIds st).Nodup ∧
    ∀ x ∈ storeIds st, ∃ k, x = some k ∧ k < st.idCounter

theorem idInv_initState : IdInv initState := by
  constructor
  · simp [storeIds, initState]
  · intro x hx
    simp [storeIds, initState] at hx

theorem storeIds_updateTable (st : AppState) :
    storeIds (updateTable st) = storeIds st ∧
      (updateTable st).idCounter = st.idCounter := by
  refine ⟨?_, rfl⟩
  unfold storeIds updateTable
  simp only [List.map_map]
  refine congrArg₂ _ (congrArg₂ _ ?_ rfl) rfl
  refine List.map_congr_left ?_
  intro s _
  rfl

theorem range_map_add (c a b : Nat) :
    (List.range (a + b)).map (fun k => some (c + k)) =
      (List.range a).map (fun k => some (c + k)) ++
        (List.range b).map (fun k => some (c + a + k)) := by
  rw [List.range_add, List.map_append, List.map_map]
  refine congrArg _ (List.map_congr_left ?_)
  intro x _
  show some (c + (a + x)) = some (c + a + x)
  exact congrArg some (by omega)

/-- Load rebuilds the store with the consecutive identities
`idCounter, idCounter+1, …`, assigned to sessions, then entries, then
commits, in load order. -/
theorem storeIds_getSessionsDone (st : AppState) (data : ServerData) :
    storeIds (getSessionsDone st data) =
        (List.range (data.sessions.length + data.time_entries.length +
            data.log.length)).map (fun k => some (st.idCounter + k))
      ∧ (getSessionsDone st data).idCounter =
          st.idCounter + (data.sessions.length + data.time_entries.length +
            data.log.length) := by
  have ha := assignSessionIds_spec (data.sessions.map parseSession) st.idCounter
  have hb := assignEntryIds_spec (data.time_entries.map parseTimeEntry)
    (st.idCounter + data.sessions.length)
  have hc := assignCommitIds_spec (data.log.map parseCommit)
    (st.idCounter + data.sessions.length + data.time_entries.length)
  simp only [List.length_map] at ha hb hc
  constructor
  · simp only [getSessionsDone]
    rw [(storeIds_updateTable _).1, storeIds]
    simp only [ha.1, ha.2, List.length_map]
    simp only [hb.1, hb.2, List.length_map]
    simp only [hc.1, List.length_map]
    rw [range_map_add st.idCounter (data.sessions.length + data.time_entries.length)
          data.log.length,
        range_map_add st.idCounter data.sessions.length data.time_entries.length]
    simp only [Nat.add_assoc, List.append_assoc]
  · simp only [getSessionsDone]
    rw [(storeIds_updateTable _).2]
    simp only [ha.2, hb.2, hc.2, List.length_map]
    omega

theorem idInv_getSessionsDone (st : AppState) (data : ServerData) :
    IdInv (getSessionsDone st data) := by
  obtain ⟨h1, h2⟩ := storeIds_getSessionsDone st data
  constructor
  · rw [h1]
    refine List.Nodup.map ?_ (List.nodup_range _)
    intro a b hab
    have h3 := Option.some.inj hab
    omega
  · intro x hx
    rw [h1] at hx
    obtain ⟨k, hk, rfl⟩ := List.mem_map.mp hx
    exact ⟨st.idCounter + k, rfl, by rw [h2]; have := List.mem_range.mp hk; omega⟩

theorem createEntry_state (st : AppState) (dg : String) (raw : RawEntry) :
    (createEntry st dg raw).1.sessions = st.sessions
      ∧ (createEntry st dg raw).1.timeEntries =
          st.timeEntries ++
            [{ parseTimeEntry raw with date_group := dg, idcounter := some st.idCounter }]
      ∧ (createEntry st dg raw).1.log = st.log
      ∧ (createEntry st dg raw).1.idCounter = st.idCounter + 1 :=
  ⟨rfl, rfl, rfl, rfl⟩

theorem perm_insert_mid (x : Option Nat) (A B C : List (Option Nat)) :
    (A ++ (B ++ [x]) ++ C).Perm (x :: (A ++ B ++ C)) := by
  have h1 : A ++ (B ++ [x]) ++ C = (A ++ B) ++ x :: C := by
    simp [List.append_assoc]
  rw [h1]
  exact List.perm_middle

theorem idInv_createEntry (st : AppState) (dg : String) (raw : RawEntry)
    (h : IdInv st) : IdInv (createEntry st dg raw).1 := by
  obtain ⟨hs, he, hl, hc⟩ := createEntry_state st dg raw
  have hids : storeIds (createEntry st dg raw).1 =
      st.sessions.map (fun s => s.idcounter) ++
        (st.timeEntries.map (fun e => e.idcounter) ++ [some st.idCounter]) ++
        st.log.map (fun c => c.idcounter) := by
    rw [storeIds, hs, he, hl, List.map_append]
    rfl
  have hperm := perm_insert_mid (some st.idCounter)
    (st.sessions.map (fun s => s.idcounter))
    (st.timeEntries.map (fun e => e.idcounter))
    (st.log.map (fun c => c.idcounter))
  have hnotmem : some st.idCounter ∉ storeIds st := by
    intro hmem
    obtain ⟨k, hk1, hk2⟩ := h.2 _ hmem
    have : k = st.idCounter := by injection hk1.symm
    omega
  constructor
  · rw [hids]
    refine hperm.nodup_iff.mpr (List.nodup_cons.mpr ⟨hnotmem, h.1⟩)
  · intro x hx
    rw [hids] at hx
    have hx' := hperm.mem_iff.mp hx
    rw [hc]
    rcases List.mem_cons.mp hx' with rfl | hx'
    · exact ⟨st.idCounter, rfl, by omega⟩
    · obtain ⟨k, hk1, hk2⟩ := h.2 _ hx'
      exact ⟨k, hk1, by omega⟩

theorem storeIds_refreshEntry (st : AppState) (raw : RawEntry) :
    storeIds (refreshEntry st raw).1 = storeIds st
      ∧ (refreshEntry st raw).1.idCounter = st.idCounter := by
  refine ⟨?_, rfl⟩
  rw [storeIds, storeIds]
  refine congrArg₂ _ (congrArg₂ _ rfl ?_) rfl
  exact refreshEntryGo_ids raw st.timeEntries st.chartItems

theorem idInv_refreshEntry (st : AppState) (raw : RawEntry)
    (h : IdInv st) : IdInv (refreshEntry st raw).1 := by
  obtain ⟨h1, h2⟩ := storeIds_refreshEntry st raw
  exact ⟨h1 ▸ h.1, fun x hx => h2 ▸ h.2 x (h1 ▸ hx)⟩

theorem storeIds_onRemove (st : AppState) (g : String) (item : Row) :
    storeIds (onRemove st g item).1 = storeIds st
      ∧ (onRemove st g item).1.idCounter = st.idCounter := by
  rw [onRemove]
  by_cases h : item.group = "entry"
  · rw [if_pos h]
    cases st.timeEntries.filter (fun e => e.idcounter == item.id) with
    | nil => exact ⟨rfl, rfl⟩
    | cons a l => exact ⟨rfl, rfl⟩
  · rw [if_neg h]
    exact ⟨rfl, rfl⟩

theorem idInv_step (st : AppState) (op : Op) (h : IdInv st) :
    IdInv (step st op) := by
  cases op with
  | load data => exact idInv_getSessionsDone st data
  | exportDone session raw => exact idInv_createEntry st session.date_group raw h
  | updateDone raw => exact idInv_refreshEntry st raw h
  | splitDone ds e1 e2 =>
      show IdInv (splitEntryDone st ds e1 e2).1
      rw [splitEntryDone]
      cases herr : (refreshEntry st e1).2 with
      | some err => exact idInv_refreshEntry st e1 h
      | none => exact idInv_createEntry _ ds e2 (idInv_refreshEntry st e1 h)
  | deleteDone i d => exact h
  | removeIntent g item =>
      obtain ⟨h1, h2⟩ := storeIds_onRemove st g item
      exact ⟨h1 ▸ h.1, fun x hx => h2 ▸ h.2 x (h1 ▸ hx)⟩

theorem idInv_runOps (ops : List Op) :
    ∀ st : AppState, IdInv st → IdInv (runOps st ops) := by
  induction ops with
  | nil => intro st h; exact h
  | cons op rest ih => intro st h; exact ih (step st op) (idInv_step st op h)

theorem runOps_append (ops : List Op) (op : Op) :
    ∀ st : AppState, runOps st (ops ++ [op]) = step (runOps st ops) op := by
  induction ops with
  | nil => intro st; rfl
  | cons o rest ih => intro st; exact ih (step st o)

/-! ### Concrete fixtures used by counterexamples and witnesses -/

def wA : WSample := ⟨"emacs", 1⟩

def wB : WSample := ⟨"firefox", 2⟩

def issueFix : Issue :=
  { key := "ABC-1", summary := "Fix the widget", project := some "7",
    idcounter := none }

def rawSessionFix : RawSession :=
  { start_time := ⟨"2021-01-01", "08:00:00"⟩,
    end_time := ⟨"2021-01-01", "09:00:00"⟩,
    date_group := "2021-01-01",
    extra_data := ⟨"work", [wA, wB]⟩,
    exported := none }

/-- A raw time entry whose date group (2021-01-02) differs from the
fixture session's (2021-01-01). -/
def rawEntryFix : RawEntry :=
  { id := 7,
    start_time := ⟨"2021-01-02", "10:00:00"⟩,
    end_time := ⟨"2021-01-02", "11:00:00"⟩,
    at_ := ⟨"2021-01-02", "11:00:00"⟩,
    description := "old", project := "7", date_group := "2021-01-02" }

def projectFix : Project :=
  { id := 3, name := "Site", clientName := "Acme", idcounter := none }

def dataFix : ServerData :=
  { sessions := [rawSessionFix], time_entries := [rawEntryFix], log := [],
    projects := [projectFix], issues := [issueFix] }

def sessionFix : Session :=
  { start_time := ⟨"2021-01-01", "08:00:00"⟩,
    end_time := ⟨"2021-01-01", "09:00:00"⟩,
    date_group := "2021-01-01",
    extra_data := ⟨"work", [wA, wB]⟩,
    exported := none, idcounter := some 5 }

def entryFix : TimeEntry :=
  { id := 7,
    start_time := ⟨"2021-01-01", "10:00:00"⟩,
    end_time := ⟨"2021-01-01", "11:00:00"⟩,
    at_ := ⟨"2021-01-01", "11:00:00"⟩,
    description := "old", project := "7", date_group := "2021-01-01",
    idcounter := some 0 }

def rowFix : Row := makeEntryRow entryFix

/-- A small live state: one stored entry whose row sits in the day
chart for 2021-01-01. -/
def stFix : AppState :=
  { sessions := [], timeEntries := [entryFix], log := [], projects := [],
    issues := [], idCounter := 1,
    chartItems := [("2021-01-01", [rowFix])] }

/-- A mutation response for remote id 7 carrying a changed
description. -/
def rawNewFix : RawEntry :=
  { id := 7,
    start_time := ⟨"2021-01-01", "10:30:00"⟩,
    end_time := ⟨"2021-01-01", "11:30:00"⟩,
    at_ := ⟨"2021-01-01", "11:30:00"⟩,
    description := "new", project := "7", date_group := "2021-01-01" }

/-! ### Claim C1 -/

/-- C1, counterexample.  The claim says the union of the date groups'
row collections contains every loaded entity with no omissions.  On the
dataset `dataFix` — one session on 2021-01-01 and one time entry on
2021-01-02 — the loaded entry belongs to no group: `updateTable` draws
the group set from sessions only (index.js:270-273), so the entry's
member list is empty for every group and the entry appears in no row
collection. -/
theorem c1_counterexample :
    (getSessionsDone initState dataFix).timeEntries.length = 1
    ∧ List.flatten
        ((distincts ((getSessionsDone initState dataFix).sessions.map
            (fun s => s.date_group))).map
          (fun g => entryMembers (getSessionsDone initState dataFix).timeEntries g))
      = [] := by
  constructor
  · rfl
  · rfl

/-- C1, amended: the set of date groups is the distinct session date
groups; the chart map holds exactly one row collection per group, built
from the per-kind member lists; each session is placed in exactly one
group's members (full multiplicity, no duplicates); each time entry and
each commit is placed in exactly one group's members when its date
group equals some session's date group, and in none otherwise. -/
theorem c1_grouping (st : AppState) :
    ((updateTable st).chartItems =
        (distincts (st.sessions.map (fun s => s.date_group))).map
          (fun g => (g, dayRows st g)))
    ∧ (∀ s : Session,
        cnt s (List.flatten
          ((distincts (st.sessions.map (fun x => x.date_group))).map
            (fun g => sessionMembers st.sessions g))) = cnt s st.sessions)
    ∧ (∀ e : TimeEntry,
        cnt e (List.flatten
          ((distincts (st.sessions.map (fun x => x.date_group))).map
            (fun g => entryMembers st.timeEntries g))) =
          if e.date_group ∈ distincts (st.sessions.map (fun x => x.date_group))
          then cnt e st.timeEntries else 0)
    ∧ (∀ c : Commit,
        cnt c (List.flatten
          ((distincts (st.sessions.map (fun x => x.date_group))).map
            (fun g => commitMembers st.log g))) =
          if c.date_group ∈ distincts (st.sessions.map (fun x => x.date_group))
          then cnt c st.log else 0) := by
  refine ⟨rfl, ?_, ?_, ?_⟩
  · intro s
    simp only [sessionMembers]
    rw [cnt_join_filter_dg (fun x => x.date_group) s st.sessions _
      (nodup_distincts _)]
    by_cases h : s.date_group ∈ distincts (st.sessions.map (fun x => x.date_group))
    · rw [if_pos h]
    · rw [if_neg h]
      refine (cnt_eq_zero.mpr ?_).symm
      intro hmem
      exact h ((mem_distincts _ _).mpr (List.mem_map.mpr ⟨s, hmem, rfl⟩))
  · intro e
    simp only [entryMembers]
    rw [cnt_join_filter_dg (fun x => x.date_group) e st.timeEntries _
      (nodup_distincts _)]
  · intro c
    simp only [commitMembers]
    rw [cnt_join_filter_dg (fun x => x.date_group) c st.log _
      (nodup_distincts _)]

/-! ### Claim C2 -/

/-- C2, counterexample.  The claim says every entity entering the store
is assigned a local identity (`idcounter`).  Loading `dataFix` stores
the project `projectFix`, but the load loop (index.js:74-78) pushes
projects without ever assigning an `idcounter`, so the stored project
has none. -/
theorem c2_counterexample :
    ((runOps initState [Op.load dataFix]).projects.all
      (fun p => p.idcounter.isSome)) = false := by
  rfl

/-- C2, amended: the claim holds for the identity-bearing kinds —
sessions, time entries and commits (projects and issues never receive a
local identity).  After any operation sequence from the initial state:
all stored `idcounter`s are pairwise distinct, assigned (`some`) and
below the counter (so no future assignment, which always hands out the
current counter, can ever reuse one); an update/move reconciliation,
a delete response and a remove intent never change any stored identity;
and a successful export assigns the next counter value to exactly one
new entry, at the moment it is appended, leaving every existing
identity in place. -/
theorem c2_identity_invariant (ops : List Op) :
    (storeIds (runOps initState ops)).Nodup
    ∧ (∀ x ∈ storeIds (runOps initState ops),
        ∃ k, x = some k ∧ k < (runOps initState ops).idCounter)
    ∧ (∀ raw, storeIds (runOps initState (ops ++ [Op.updateDone raw])) =
        storeIds (runOps initState ops))
    ∧ (∀ i d, storeIds (runOps initState (ops ++ [Op.deleteDone i d])) =
        storeIds (runOps initState ops))
    ∧ (∀ g item, storeIds (runOps initState (ops ++ [Op.removeIntent g item])) =
        storeIds (runOps initState ops))
    ∧ (∀ session raw,
        (runOps initState (ops ++ [Op.exportDone session raw])).timeEntries.map
            (fun e => e.idcounter)
          = (runOps initState ops).timeEntries.map (fun e => e.idcounter)
            ++ [some (runOps initState ops).idCounter]
        ∧ (runOps initState (ops ++ [Op.exportDone session raw])).sessions
            = (runOps initState ops).sessions
        ∧ (runOps initState (ops ++ [Op.exportDone session raw])).log
            = (runOps initState ops).log) := by
  have hinv := idInv_runOps ops initState idInv_initState
  refine ⟨hinv.1, hinv.2, ?_, ?_, ?_, ?_⟩
  · intro raw
    rw [runOps_append]
    exact (storeIds_refreshEntry _ raw).1
  · intro i d
    rw [runOps_append]
    rfl
  · intro g item
    rw [runOps_append]
    exact (storeIds_onRemove _ g item).1
  · intro session raw
    rw [runOps_append]
    refine ⟨?_, rfl, rfl⟩
    show (createEntry _ _ _).1.timeEntries.map _ = _
    rw [(createEntry_state _ _ _).2.1, List.map_append]
    rfl

/-- C2, witness: the invariant evaluated after one load of `dataFix` —
the store's identities are duplicate-free and the identity `some 0`
found in the store is assigned and below the counter. -/
theorem c2_witness :
    (storeIds (runOps initState [Op.load dataFix])).Nodup
    ∧ (∃ k, (some 0 : Option Nat) = some k
        ∧ k < (runOps initState [Op.load dataFix]).idCounter) :=
  ⟨(c2_identity_invariant [Op.load dataFix]).1,
   (c2_identity_invariant [Op.load dataFix]).2.1 (some 0) (by decide)⟩

/-! ### Claim C7 -/

/-- C7, counterexample.  The claim says a load discards every
previously held entity, including every previously loaded issue.  After
two loads of `dataFix`, the issue loaded the first time is still
present (the success callback resets `sessions`, `timeEntries`, `log`,
`projects` and `chartItems` at index.js:50-54 but never `issues`, and
index.js:82-85 only appends), so the issue list is not the freshly
loaded one. -/
theorem c7_counterexample :
    issueFix ∈ (runOps initState [Op.load dataFix, Op.load dataFix]).issues
    ∧ (runOps initState [Op.load dataFix, Op.load dataFix]).issues
        ≠ dataFix.issues := by
  constructor
  · decide
  · decide

/-- C7, amended: a load replaces the session, time-entry, commit and
project collections and the chart map, rebuilding them from the
response alone — the result depends on the prior state only through
`issues` and `idCounter` — while the new issues are appended to the
previously loaded ones, and fresh, consecutive local identities
starting at the pre-load counter are assigned to every session, entry
and commit in load order. -/
theorem c7_load_replaces (data : ServerData) (st st' : AppState)
    (h1 : st.issues = st'.issues) (h2 : st.idCounter = st'.idCounter) :
    getSessionsDone st data = getSessionsDone st' data
    ∧ (getSessionsDone st data).issues = st.issues ++ data.issues
    ∧ (getSessionsDone st data).projects = data.projects
    ∧ storeIds (getSessionsDone st data) =
        (List.range (data.sessions.length + data.time_entries.length +
          data.log.length)).map (fun k => some (st.idCounter + k))
    ∧ (getSessionsDone st data).idCounter =
        st.idCounter + (data.sessions.length + data.time_entries.length +
          data.log.length) := by
  refine ⟨?_, rfl, rfl, (storeIds_getSessionsDone st data).1,
    (storeIds_getSessionsDone st data).2⟩
  simp only [getSessionsDone, h1, h2]

/-- C7, witness: the amended load behaviour evaluated on the fixture
state and dataset. -/
theorem c7_witness :
    getSessionsDone stFix dataFix = getSessionsDone stFix dataFix
    ∧ (getSessionsDone stFix dataFix).issues = stFix.issues ++ dataFix.issues
    ∧ (getSessionsDone stFix dataFix).projects = dataFix.projects
    ∧ storeIds (getSessionsDone stFix dataFix) =
        (List.range (dataFix.sessions.length + dataFix.time_entries.length +
          dataFix.log.length)).map (fun k => some (stFix.idCounter + k))
    ∧ (getSessionsDone stFix dataFix).idCounter =
        stFix.idCounter + (dataFix.sessions.length +
          dataFix.time_entries.length + dataFix.log.length) :=
  c7_load_replaces dataFix stFix stFix rfl rfl

/-! ### Claim C8 -/

/-- C8: the code evaluated at the failing input.  With the known issues
list `[issueFix]` (key "ABC-1") and the typed text "lunch break", no
issue key matches, yet the guard at index.js:25 tests the length of the
whole `issues` list instead of the filtered `issue` match list, so
`issue[0].project` reads a property of `undefined` and the handler
throws instead of completing without error. -/
theorem c8_bug_throws :
    descriptionChange [issueFix] "lunch break" "p1" =
      .error "TypeError: cannot read property of undefined" := rfl

/-! ### Claim C9 -/

/-- C9, counterexample.  The claim says `makeRow` leaves the entity —
including a session's window-activity sample list and its order —
unchanged.  On `sessionFix`, whose samples are in ascending duration
order, `makeRow(session, 'session')` sorts the list in place
(index.js:236, `Array.prototype.sort` mutates), so the entity after the
call differs from the entity before it. -/
theorem c9_counterexample :
    (makeRow (Entity.session sessionFix) "session").map (fun p => p.2)
      ≠ some (Entity.session sessionFix) := by
  decide

/-- C9, amended: `makeRow` is deterministic and idempotent — calling it
again on the entity returned by a first call yields the identical row
and entity — and for the entry and commit kinds the entity is returned
unchanged; only the session kind has a side effect, the in-place
descending sort of the window sample list (whose repetition changes
nothing further). -/
theorem c9_projection (ent : Entity) (ty : String) (r1 : Row) (ent1 : Entity)
    (h : makeRow ent ty = some (r1, ent1)) :
    makeRow ent1 ty = some (r1, ent1)
    ∧ ((ty = "entry" ∨ ty = "commit") → ent1 = ent) := by
  unfold makeRow at h ⊢
  by_cases h1 : ty = "session"
  · rw [if_pos h1] at h ⊢
    cases ent with
    | session s =>
        simp only [Option.some.injEq, Prod.mk.injEq] at h
        obtain ⟨hr, he⟩ := h
        subst hr
        subst he
        constructor
        · simp [makeSessionRow_idem]
        · intro hcase
          subst h1
          rcases hcase with h2 | h2 <;> exact absurd h2 (by decide)
    | entry e => simp at h
    | commit c => simp at h
  · rw [if_neg h1] at h ⊢
    by_cases h2 : ty = "entry"
    · rw [if_pos h2] at h ⊢
      cases ent with
      | session s => simp at h
      | entry e =>
          simp only [Option.some.injEq, Prod.mk.injEq] at h
          obtain ⟨hr, he⟩ := h
          subst hr
          subst he
          exact ⟨rfl, fun _ => rfl⟩
      | commit c => simp at h
    · rw [if_neg h2] at h ⊢
      by_cases h3 : ty = "commit"
      · rw [if_pos h3] at h ⊢
        cases ent with
        | session s => simp at h
        | entry e => simp at h
        | commit c =>
            simp only [Option.some.injEq, Prod.mk.injEq] at h
            obtain ⟨hr, he⟩ := h
            subst hr
            subst he
            exact ⟨rfl, fun _ => rfl⟩
      · rw [if_neg h3] at h
        simp at h

/-- C9, witness: the amended projection behaviour evaluated on the
fixture entry — the second call returns the same row, and the entity is
unchanged. -/
theorem c9_witness :
    makeRow (Entity.entry entryFix) "entry" =
        some (makeEntryRow entryFix, Entity.entry entryFix)
    ∧ Entity.entry entryFix = Entity.entry entryFix :=
  ⟨(c9_projection (Entity.entry entryFix) "entry" (makeEntryRow entryFix)
      (Entity.entry entryFix) rfl).1,
   (c9_projection (Entity.entry entryFix) "entry" (makeEntryRow entryFix)
      (Entity.entry entryFix) rfl).2 (Or.inl rfl)⟩

/-! ### Claim C4 -/

/-- When the owning day's chart exists and the fresh identity collides
with no existing row id, `createEntry` appends exactly one entry (with
the next counter value) and exactly one row, and reports no error. -/
theorem createEntry_success (st : AppState) (dg : String) (raw : RawEntry)
    (rows : List Row) (newE : TimeEntry)
    (hnew : newE = { parseTimeEntry raw with
      date_group := dg, idcounter := some st.idCounter })
    (hc : chartLookup st.chartItems dg = some rows)
    (hrows : ∀ r ∈ rows, r.id ≠ some st.idCounter) :
    createEntry st dg raw =
      ({ st with timeEntries := st.timeEntries ++ [newE],
                 idCounter := st.idCounter + 1,
                 chartItems := chartsModify st.chartItems dg
                   (fun rs => rs ++ [makeEntryRow newE]) }, none) := by
  subst hnew
  have hid : (makeEntryRow { parseTimeEntry raw with
      date_group := dg, idcounter := some st.idCounter }).id
      = some st.idCounter := rfl
  have hany : (rows.any (fun x => x.id ==
      (makeEntryRow { parseTimeEntry raw with
        date_group := dg, idcounter := some st.idCounter }).id)) = false := by
    rw [hid]
    refine List.any_eq_false.mpr ?_
    intro x hx
    simp only [beq_iff_eq]
    exact hrows x hx
  simp only [createEntry, chartAddRow, hc, hany]
  rfl

/-- C4: a session export posts a create request with no remote id,
spanning exactly the selected session's start time to the last-selected
item's end time; on success exactly one new entry is created, its local
identity is the fresh counter value (held by no stored entity), and
exactly one row is appended to the owning day's chart (its row count
grows by one), all other charts and collections unchanged. -/
theorem c4_export (session lastSel : Session) (desc proj : String)
    (st : AppState) (raw : RawEntry) (rows : List Row) (newE : TimeEntry)
    (hnew : newE = { parseTimeEntry raw with
      date_group := session.date_group, idcounter := some st.idCounter })
    (hc : chartLookup st.chartItems session.date_group = some rows)
    (hrows : ∀ r ∈ rows, r.id ≠ some st.idCounter)
    (hids : ∀ x ∈ storeIds st, x ≠ some st.idCounter) :
    btnExportSession session lastSel desc proj =
        { id := none, start_time := session.start_time,
          end_time := lastSel.end_time, name := desc, project := some proj }
    ∧ (exportSessionDone st session raw).2 = none
    ∧ (exportSessionDone st session raw).1.timeEntries = st.timeEntries ++ [newE]
    ∧ newE.idcounter = some st.idCounter
    ∧ some st.idCounter ∉ storeIds st
    ∧ chartLookup (exportSessionDone st session raw).1.chartItems
        session.date_group = some (rows ++ [makeEntryRow newE])
    ∧ (rows ++ [makeEntryRow newE]).length = rows.length + 1
    ∧ (∀ g, g ≠ session.date_group →
        chartLookup (exportSessionDone st session raw).1.chartItems g
          = chartLookup st.chartItems g)
    ∧ (exportSessionDone st session raw).1.sessions = st.sessions
    ∧ (exportSessionDone st session raw).1.log = st.log := by
  have hC := createEntry_success st session.date_group raw rows newE hnew hc hrows
  have hED : exportSessionDone st session raw =
      createEntry st session.date_group raw := rfl
  rw [hED, hC]
  refine ⟨rfl, rfl, rfl, by rw [hnew], fun hmem => hids _ hmem rfl, ?_,
    by simp, ?_, rfl, rfl⟩
  · rw [chartLookup_chartsModify, if_pos rfl, hc]
    rfl
  · intro g hg
    rw [chartLookup_chartsModify, if_neg hg]

/-- C4, witness: exporting the fixture session against the fixture
state appends one row to the 2021-01-01 chart and reports no error. -/
theorem c4_witness :
    (exportSessionDone stFix sessionFix rawNewFix).2 = none
    ∧ chartLookup (exportSessionDone stFix sessionFix rawNewFix).1.chartItems
        sessionFix.date_group
      = some ([rowFix] ++ [makeEntryRow { parseTimeEntry rawNewFix with
          date_group := sessionFix.date_group
          idcounter := some stFix.idCounter }]) := by
  have h := c4_export sessionFix sessionFix "desc" "7" stFix rawNewFix [rowFix]
    ({ parseTimeEntry rawNewFix with
       date_group := sessionFix.date_group, idcounter := some stFix.idCounter })
    rfl (by decide) (by decide) (by decide)
  exact ⟨h.2.1, h.2.2.2.2.2.1⟩

/-! ### Claim C6 -/

/-- C6, counterexample.  The claim says a confirmed delete response
removes the entry from the local entity collection and its row from the
day's collection.  The delete success callback (index.js:147-149) only
shows an alert: on the fixture state the whole state — entity
collection and charts alike — is unchanged, and the entry with the
deleted remote id 7 is still stored. -/
theorem c6_counterexample :
    deleteEntryDone stFix 7 "confirmed" = stFix
    ∧ (deleteEntryDone stFix 7 "confirmed").timeEntries = [entryFix]
    ∧ entryFix.id = 7 :=
  ⟨rfl, rfl, rfl⟩

/-- C6, amended: the row disappears at remove-intent time, not on the
response — when the widget raises a remove intent for an entry row
whose entity exists, the delete request is posted and the row is
removed from that day's collection immediately (other rows, groups and
all entity collections untouched), while the confirmed delete response
itself changes nothing; entries are never removed from the entity
collection. -/
theorem c6_remove (st : AppState) (g : String) (item : Row) (i : Nat)
    (d : String)
    (hg : item.group = "entry")
    (hmatch : st.timeEntries.filter (fun e => e.idcounter == item.id) ≠ []) :
    (onRemove st g item).2 = none
    ∧ (onRemove st g item).1.timeEntries = st.timeEntries
    ∧ (onRemove st g item).1.sessions = st.sessions
    ∧ (onRemove st g item).1.log = st.log
    ∧ chartLookup (onRemove st g item).1.chartItems g
        = (chartLookup st.chartItems g).map
            (fun rows => rows.filter (fun r => !(r.id == item.id)))
    ∧ (∀ g', g' ≠ g → chartLookup (onRemove st g item).1.chartItems g'
        = chartLookup st.chartItems g')
    ∧ deleteEntryDone st i d = st := by
  cases hfil : st.timeEntries.filter (fun e => e.idcounter == item.id) with
  | nil => exact absurd hfil hmatch
  | cons a l =>
      have hstep : onRemove st g item =
          ({ st with chartItems := chartRemoveRow st.chartItems g item.id },
           none) := by
        rw [onRemove, if_pos hg, hfil]
      rw [hstep]
      refine ⟨rfl, rfl, rfl, rfl, ?_, ?_, rfl⟩
      · rw [chartLookup_chartRemoveRow, if_pos rfl]
      · intro g' hgg
        rw [chartLookup_chartRemoveRow, if_neg hgg]

/-- C6, witness: a remove intent on the fixture entry row empties the
2021-01-01 chart and leaves the entity collection intact. -/
theorem c6_witness :
    (onRemove stFix "2021-01-01" rowFix).2 = none
    ∧ (onRemove stFix "2021-01-01" rowFix).1.timeEntries = stFix.timeEntries
    ∧ chartLookup (onRemove stFix "2021-01-01" rowFix).1.chartItems "2021-01-01"
        = (chartLookup stFix.chartItems "2021-01-01").map
            (fun rows => rows.filter (fun r => !(r.id == rowFix.id))) := by
  have h := c6_remove stFix "2021-01-01" rowFix 7 "confirmed" rfl (by decide)
  exact ⟨h.1, h.2.1, h.2.2.2.2.1⟩

/-! ### Claim C5 -/

/-- C5, counterexample.  The claim says only the row's time span (and
description-derived fields) change while its content is unchanged.  On
the fixture state, reconciling the response `rawNewFix` (description
"new") into the entry whose row had content "old" rewrites the row's
content to "new": `refreshEntry` pushes the response description into
both `title` and `content` of the row (index.js:103-104). -/
theorem c5_counterexample :
    (chartLookup (refreshEntry stFix rawNewFix).1.chartItems "2021-01-01").map
        (fun rows => rows.map (fun r => r.content)) = some ["new"]
    ∧ rowFix.content = "old" :=
  ⟨rfl, rfl⟩

/-- C5, amended: reconciling an update/move response for an entry
present exactly once in the store (and whose row is present exactly
once in its day's chart) rewrites only that entry and that row: the row
keeps its id, group, class, type and editability, and gets the
response's start/end as its span and the response's description as both
content and title; every other row in that chart, every other chart,
and every other collection is left byte-identical. -/
theorem c5_move_update (st : AppState) (raw : RawEntry)
    (pre post : List TimeEntry) (E : TimeEntry)
    (rpre rpost : List Row) (R : Row)
    (hsplit : st.timeEntries = pre ++ E :: post)
    (hpre : ∀ e ∈ pre, e.id ≠ raw.id) (hpost : ∀ e ∈ post, e.id ≠ raw.id)
    (hE : E.id = raw.id)
    (hrows : chartLookup st.chartItems E.date_group = some (rpre ++ R :: rpost))
    (hR : R.id = E.idcounter)
    (hrpre : ∀ r ∈ rpre, r.id ≠ E.idcounter)
    (hrpost : ∀ r ∈ rpost, r.id ≠ E.idcounter) :
    refreshEntry st raw =
      ({ st with
          timeEntries := pre ++ updEntity E raw :: post,
          chartItems := chartsModify st.chartItems E.date_group
            (fun rs => chartUpdateRow rs E.idcounter raw.description
              (parseTime raw.start_time) (parseTime raw.end_time)) }, none)
    ∧ (updEntity E raw).idcounter = E.idcounter
    ∧ (updEntity E raw).id = E.id
    ∧ (updEntity E raw).date_group = E.date_group
    ∧ chartLookup (refreshEntry st raw).1.chartItems E.date_group
        = some (rpre ++ { R with
            title := raw.description, content := raw.description,
            start := parseTime raw.start_time,
            end_ := some (parseTime raw.end_time) } :: rpost)
    ∧ (∀ g, g ≠ E.date_group →
        chartLookup (refreshEntry st raw).1.chartItems g
          = chartLookup st.chartItems g)
    ∧ ({ R with
          title := raw.description, content := raw.description,
          start := parseTime raw.start_time,
          end_ := some (parseTime raw.end_time) } : Row).id = R.id
    ∧ ({ R with
          title := raw.description, content := raw.description,
          start := parseTime raw.start_time,
          end_ := some (parseTime raw.end_time) } : Row).group = R.group
    ∧ ({ R with
          title := raw.description, content := raw.description,
          start := parseTime raw.start_time,
          end_ := some (parseTime raw.end_time) } : Row).className = R.className
    ∧ ({ R with
          title := raw.description, content := raw.description,
          start := parseTime raw.start_time,
          end_ := some (parseTime raw.end_time) } : Row).editable = R.editable
    ∧ (refreshEntry st raw).1.sessions = st.sessions
    ∧ (refreshEntry st raw).1.log = st.log
    ∧ (refreshEntry st raw).1.idCounter = st.idCounter := by
  have hgo := refreshEntryGo_single raw pre E post st.chartItems
    (rpre ++ R :: rpost) hpre hpost hE hrows
  have hmain : refreshEntry st raw =
      ({ st with
          timeEntries := pre ++ updEntity E raw :: post,
          chartItems := chartsModify st.chartItems E.date_group
            (fun rs => chartUpdateRow rs E.idcounter raw.description
              (parseTime raw.start_time) (parseTime raw.end_time)) }, none) := by
    simp only [refreshEntry, hsplit, hgo]
  refine ⟨hmain, rfl, rfl, rfl, ?_, ?_, rfl, rfl, rfl, rfl, ?_, ?_, ?_⟩
  · rw [hmain]
    show chartLookup (chartsModify st.chartItems E.date_group _) E.date_group = _
    rw [chartLookup_chartsModify, if_pos rfl, hrows]
    simp only [Option.map_some']
    rw [chartUpdateRow_single rpre rpost R E.idcounter raw.description
      (parseTime raw.start_time) (parseTime raw.end_time) hR hrpre hrpost]
  · intro g hg
    rw [hmain]
    show chartLookup (chartsModify st.chartItems E.date_group _) g = _
    rw [chartLookup_chartsModify, if_neg hg]
  · rw [hmain]
  · rw [hmain]
  · rw [hmain]

/-- C5, witness: the amended reconciliation evaluated on the fixture —
the updated entry keeps its local identity and the chart holds exactly
the rewritten row. -/
theorem c5_witness :
    (updEntity entryFix rawNewFix).idcounter = entryFix.idcounter
    ∧ chartLookup (refreshEntry stFix rawNewFix).1.chartItems
        entryFix.date_group
      = some ([] ++ { rowFix with
          title := rawNewFix.description, content := rawNewFix.description,
          start := parseTime rawNewFix.start_time,
          end_ := some (parseTime rawNewFix.end_time) } :: []) := by
  have h := c5_move_update stFix rawNewFix [] [] entryFix [] [] rowFix rfl
    (by simp) (by simp) rfl rfl rfl (by simp) (by simp)
  exact ⟨h.2.1, h.2.2.2.2.1⟩

/-! ### Claim C10 -/

/-- C10: when no stored entry's remote id equals the response's id,
`refreshEntry` is a no-op on the whole state (entities and every day's
rows); when some match, every matching entry is overwritten from the
response and the reconciliation completes without error (the chart of
each matching entry is assumed present, as the chart access would
otherwise throw). -/
theorem c10_refresh (st : AppState) (raw : RawEntry)
    (h : ∀ e ∈ st.timeEntries, e.id = raw.id →
      (chartLookup st.chartItems e.date_group).isSome = true) :
    ((∀ e ∈ st.timeEntries, e.id ≠ raw.id) → refreshEntry st raw = (st, none))
    ∧ (refreshEntry st raw).2 = none
    ∧ (refreshEntry st raw).1.timeEntries =
        st.timeEntries.map
          (fun e => if e.id = raw.id then updEntity e raw else e) := by
  obtain ⟨h1, h2⟩ := refreshEntryGo_general raw st.timeEntries st.chartItems h
  refine ⟨?_, h2, h1⟩
  intro hnone
  have hgo := refreshEntryGo_no_match raw st.timeEntries st.chartItems hnone
  simp only [refreshEntry, hgo]

/-- C10, witness: the reconciliation evaluated on the fixture state,
where exactly one entry matches the response's remote id. -/
theorem c10_witness :
    (refreshEntry stFix rawNewFix).2 = none
    ∧ (refreshEntry stFix rawNewFix).1.timeEntries =
        stFix.timeEntries.map
          (fun e => if e.id = rawNewFix.id then updEntity e rawNewFix else e) := by
  have h := c10_refresh stFix rawNewFix (by decide)
  exact ⟨h.2.1, h.2.2⟩

/-! ### Claim C3 -/

/-- The second entry of the fixture split response: remote id 8, times
on 2021-01-01, and a server-side date group ("srv") that the client
overwrites. -/
def raw2Fix : RawEntry :=
  { id := 8,
    start_time := ⟨"2021-01-01", "10:30:00"⟩,
    end_time := ⟨"2021-01-01", "11:00:00"⟩,
    at_ := ⟨"2021-01-01", "11:00:00"⟩,
    description := "part2", project := "7", date_group := "srv" }

/-- The 2021-01-01 chart rows after the fixture's first-entry
reconciliation. -/
def rowsDFix : List Row :=
  [{ rowFix with
      title := "new", content := "new",
      start := ⟨"2021-01-01", "10:30:00"⟩,
      end_ := some ⟨"2021-01-01", "11:30:00"⟩ }]

/-- C3: on a split response for an entry present exactly once in the
store, the first response entry is reconciled as an in-place update of
the original (same local identity, start/end/description overwritten
from the response), and the second is reconciled as a creation whose
date group is `date_str` — the calendar day of the request's split
point, since all three request timestamps are built on day `date_str` —
appended as one new row to that day's row collection. -/
theorem c3_split (st : AppState) (raw1 raw2 : RawEntry)
    (entryId : Nat) (date_str startTod endTod splitTod desc proj : String)
    (pre post : List TimeEntry) (E : TimeEntry)
    (rpre rpost : List Row) (R : Row) (rowsD : List Row) (newE : TimeEntry)
    (hsplit : st.timeEntries = pre ++ E :: post)
    (hpre : ∀ e ∈ pre, e.id ≠ raw1.id) (hpost : ∀ e ∈ post, e.id ≠ raw1.id)
    (hE : E.id = raw1.id)
    (hrows : chartLookup st.chartItems E.date_group = some (rpre ++ R :: rpost))
    (hnew : newE = { parseTimeEntry raw2 with
      date_group := date_str, idcounter := some st.idCounter })
    (hD : chartLookup (refreshEntry st raw1).1.chartItems date_str = some rowsD)
    (hfresh : ∀ r ∈ rowsD, r.id ≠ some st.idCounter) :
    (splitEntryRequest entryId date_str startTod endTod splitTod desc
        proj).split_time.calendarDay = date_str
    ∧ (splitEntryDone st date_str raw1 raw2).2 = none
    ∧ (splitEntryDone st date_str raw1 raw2).1.timeEntries
        = (pre ++ updEntity E raw1 :: post) ++ [newE]
    ∧ (updEntity E raw1).idcounter = E.idcounter
    ∧ newE.date_group = date_str
    ∧ newE.idcounter = some st.idCounter
    ∧ chartLookup (splitEntryDone st date_str raw1 raw2).1.chartItems date_str
        = some (rowsD ++ [makeEntryRow newE]) := by
  have hgo := refreshEntryGo_single raw1 pre E post st.chartItems
    (rpre ++ R :: rpost) hpre hpost hE hrows
  have hmid : refreshEntry st raw1 =
      ({ st with
          timeEntries := pre ++ updEntity E raw1 :: post,
          chartItems := chartsModify st.chartItems E.date_group
            (fun rs => chartUpdateRow rs E.idcounter raw1.description
              (parseTime raw1.start_time) (parseTime raw1.end_time)) }, none) := by
    simp only [refreshEntry, hsplit, hgo]
  rw [hmid] at hD
  have hCE := createEntry_success
    ({ st with
        timeEntries := pre ++ updEntity E raw1 :: post,
        chartItems := chartsModify st.chartItems E.date_group
          (fun rs => chartUpdateRow rs E.idcounter raw1.description
            (parseTime raw1.start_time) (parseTime raw1.end_time)) })
    date_str raw2 rowsD newE hnew hD hfresh
  have hsde : splitEntryDone st date_str raw1 raw2 =
      createEntry
        ({ st with
            timeEntries := pre ++ updEntity E raw1 :: post,
            chartItems := chartsModify st.chartItems E.date_group
              (fun rs => chartUpdateRow rs E.idcounter raw1.description
                (parseTime raw1.start_time) (parseTime raw1.end_time)) })
        date_str raw2 := by
    simp only [splitEntryDone, hmid]
  refine ⟨rfl, ?_, ?_, rfl, by rw [hnew], by rw [hnew], ?_⟩
  · rw [hsde, hCE]
  · rw [hsde, hCE]
  · rw [hsde, hCE]
    show chartLookup (chartsModify _ date_str _) date_str = _
    rw [chartLookup_chartsModify, if_pos rfl, hD]
    rfl

/-- C3, witness: splitting the fixture entry with a response pair
(`rawNewFix`, `raw2Fix`) on day 2021-01-01 — the request's split point
lies on that day, and the new second entry's row lands in that day's
chart. -/
theorem c3_witness :
    (splitEntryRequest 7 "2021-01-01" "10:00:00" "11:30:00" "10:30:00"
        "d" "7").split_time.calendarDay = "2021-01-01"
    ∧ (splitEntryDone stFix "2021-01-01" rawNewFix raw2Fix).2 = none
    ∧ chartLookup
        (splitEntryDone stFix "2021-01-01" rawNewFix raw2Fix).1.chartItems
        "2021-01-01"
      = some (rowsDFix ++ [makeEntryRow { parseTimeEntry raw2Fix with
          date_group := "2021-01-01", idcounter := some stFix.idCounter }]) := by
  have h := c3_split stFix rawNewFix raw2Fix 7 "2021-01-01" "10:00:00"
    "11:30:00" "10:30:00" "d" "7" [] [] entryFix [] [] rowFix rowsDFix
    ({ parseTimeEntry raw2Fix with
       date_group := "2021-01-01", idcounter := some stFix.idCounter })
    rfl (by simp) (by simp) rfl rfl rfl (by decide) (by decide)
  exact ⟨h.1, h.2.1, h.2.2.2.2.2.2⟩

end Thyme
